import Mathlib

/-!
Shallow embedding of the `/predict` request handler of `src/app.py`
(a Flask front-end around a YOLO object-detection model).

Modelling conventions:
* Confidences are rationals (`ℚ`); the source uses Python floats.  The raw
  model confidence lies in `[0,1]` and the handler scales it by 100.
* `round(conf, 2)` is modelled by `round2`; Python rounds ties to even over
  binary floats, the model rounds ties up — no property below inspects a tie.
* The filesystem is a function from a directory path to an optional listing
  (`none` = the directory does not exist), mirroring the handler's use of
  `os.path.exists` / `os.listdir`.
* The external model call `model.predict(...)` is a parameter
  `runModel : String → List YoloResult`; `model.names` is a parameter
  `names : Nat → Option String`.
* String scanning is done on `String.toList` so that the character-level
  behaviour of the Python string operations is explicit.
-/

namespace App

/-- Characters kept by werkzeug's sanitizer: ASCII letters, digits, `_`, `.`, `-`
(the regex `[^A-Za-z0-9_.-]` deletes everything else). -/
def allowedChar (c : Char) : Bool :=
  (65 ≤ c.toNat && c.toNat ≤ 90) || (97 ≤ c.toNat && c.toNat ≤ 122) ||
  (48 ≤ c.toNat && c.toNat ≤ 57) || c = '_' || c = '.' || c = '-'

/-- The ASCII whitespace characters Python's `str.split()` splits on. -/
def pySpace (c : Char) : Bool :=
  c = ' ' || c = '\t' || c = '\n' || c = '\r' || c = '\x0b' || c = '\x0c'

/-- Keep only ASCII characters.  Models the `unicodedata.normalize("NFKD", ·)`
followed by `encode("ascii", "ignore")` step of `secure_filename`: on ASCII
input it is the identity, which is the only fact the development uses. -/
def asciiOnly (cs : List Char) : List Char := cs.filter (fun c => c.toNat < 128)

/-- Replace the POSIX path separator by a space (`filename.replace(os.sep, " ")`;
`os.path.altsep` is `None` on POSIX). -/
def sepToSpace (cs : List Char) : List Char :=
  cs.map (fun c => if c = '/' then ' ' else c)

/-- Python `str.split()`: split on whitespace runs, discarding empty pieces. -/
def wsTokens (cs : List Char) : List (List Char) :=
  (cs.splitOnP pySpace).filter (fun t => t ≠ [])

/-- Python `"_".join(tokens)`. -/
def underscoreJoin (ts : List (List Char)) : List Char :=
  (ts.intersperse ['_']).flatten

/-- The regex substitution `re.sub(r"[^A-Za-z0-9_.-]", "", ·)`. -/
def dropUnallowed (cs : List Char) : List Char := cs.filter allowedChar

/-- Is the character one of those stripped by Python `strip("._")`? -/
def isDU (c : Char) : Bool := c = '.' || c = '_'

/-- Python `str.strip("._")`: drop leading and trailing dots and underscores. -/
def stripDU (cs : List Char) : List Char :=
  ((cs.dropWhile isDU).reverse.dropWhile isDU).reverse

/-- Modelled from the spec: `werkzeug.utils.secure_filename`, the sanitizer the
handler calls at `src/app.py:41`, is an external dependency whose source is not
part of this repository.  The spec describes it as stripping path separators
and unsafe characters; this definition follows the library's documented
algorithm on POSIX: drop non-ASCII characters, turn path separators into
spaces, join the whitespace-separated tokens with underscores, delete every
character outside `[A-Za-z0-9_.-]`, and strip leading/trailing `.` and `_`. -/
def secureFilenameList (cs : List Char) : List Char :=
  stripDU (dropUnallowed (underscoreJoin (wsTokens (sepToSpace (asciiOnly cs)))))

/-- String-level wrapper of `secureFilenameList`; keeps the source's name. -/
def secure_filename (s : String) : String :=
  String.mk (secureFilenameList s.toList)

/-- Model of `os.path.join` for POSIX, as used by the handler. -/
def osJoin (dir name : String) : String :=
  if name.toList.head? = some '/' then name
  else if dir = "" then name
  else if dir.toList.getLast? = some '/' then dir ++ name
  else dir ++ "/" ++ name

/-- Model of `os.path.splitext(s)[0]` for a path without a directory separator (the
handler only applies it to a sanitized filename, which contains no `/`):
cut at the last dot, unless every character before it is a dot. -/
def splitextRoot (s : String) : String :=
  let cs := s.toList
  match cs.reverse.findIdx? (fun c => c == '.') with
  | none => s
  | some r =>
    let idx := cs.length - 1 - r
    if (cs.take idx).any (fun c => c != '.') then String.mk (cs.take idx) else s

/-- One raw detection box of the external model: `box.cls[0]` (class id) and
`box.conf[0]` (raw confidence in `[0,1]`, modelled as a rational). -/
structure Box where
  cls : Nat
  conf : ℚ
deriving DecidableEq

/-- One per-image result of the model: its `boxes` collection, which the
handler guards with `boxes is not None`. -/
structure YoloResult where
  boxes : Option (List Box)
deriving DecidableEq

/-- One entry of the `predictions` list: `{'label': label, 'confidence': round(conf, 2)}`. -/
structure Pred where
  label : String
  confidence : ℚ
deriving DecidableEq

/-- The aggregation state built by the `for box in boxes` loop. -/
structure AggState where
  predictions : List Pred
  class_counts : List (String × Nat)
  alert_message : String
deriving DecidableEq

/-- The fixed mine warning assigned at `src/app.py:81`. -/
def mineAlert : String := "⚠️ Mine ahead!"

/-- The alert assigned at `src/app.py:105` when no annotated image is found. -/
def notFoundAlert : String :=
  "Prediction completed, but annotated image not found. Showing original."

/-- Label lookup `model.names.get(cls_id, f"Class {cls_id}")`. -/
def labelOf (names : Nat → Option String) (clsId : Nat) : String :=
  (names clsId).getD ("Class " ++ Nat.repr clsId)

/-- Python `str.lower()`, character by character (the labels and filenames
involved are ASCII). -/
def strLower (s : String) : String := String.mk (s.toList.map Char.toLower)

/-- Python `round(q, 2)` (rounding to two decimal places). -/
def round2 (q : ℚ) : ℚ := (round (q * 100) : ℤ) / 100

/-- Dictionary update `class_counts[label] = class_counts.get(label, 0) + 1` on an
insertion-ordered dictionary represented as an association list. -/
def incCount : List (String × Nat) → String → List (String × Nat)
  | [], k => [(k, 1)]
  | (k', v) :: rest, k =>
    if k' = k then (k', v + 1) :: rest else (k', v) :: incCount rest k

/-- Sum of the values of a `class_counts` dictionary. -/
def sumCounts (m : List (String × Nat)) : Nat := (m.map Prod.snd).sum

/-- The body of the `for box in boxes` loop (`src/app.py:72-81`). -/
def processBox (names : Nat → Option String) (st : AggState) (b : Box) : AggState :=
  let conf : ℚ := b.conf * 100
  let label := labelOf names b.cls
  { predictions := st.predictions ++ [{ label := label, confidence := round2 conf }]
    class_counts := incCount st.class_counts label
    alert_message :=
      if strLower label = "milco" ∧ conf > 60 then mineAlert else st.alert_message }

/-- The `predictions` entry a single box contributes. -/
def mkPred (names : Nat → Option String) (b : Box) : Pred :=
  { label := labelOf names b.cls, confidence := round2 (b.conf * 100) }

/-- The test `file_in_dir.lower().endswith(('.jpg', '.jpeg', '.png', '.bmp', '.gif'))`. -/
def isImageFile (f : String) : Bool :=
  [".jpg", ".jpeg", ".png", ".bmp", ".gif"].any
    (fun e => e.toList.isSuffixOf (strLower f).toList)

/-- The annotated-image search (`src/app.py:86-105`): scan the listing of the
results directory for the first image-like file; on a miss (directory absent
or no match) keep the original path and overwrite the alert.  Returns
`(image_to_display_path, alert_message)`. -/
def locateArtifact (fs : String → Option (List String)) (resultDir filepath alertIn : String) :
    String × String :=
  match fs resultDir with
  | some files =>
    match files.find? isImageFile with
    | some f => (osJoin resultDir f, alertIn)
    | none => (filepath, notFoundAlert)
  | none => (filepath, notFoundAlert)

/-- The values the handler passes to the template. -/
structure Output where
  predictions : List Pred
  class_counts : List (String × Nat)
  alert_message : String
  image_to_display : String
deriving DecidableEq

/-- Result post-processing (`src/app.py:58-117`): branch on the result list
and on the first result's `boxes`, aggregate detections, locate the artifact. -/
def processResults (names : Nat → Option String) (results : List YoloResult)
    (fs : String → Option (List String)) (filepath resultDir : String) : Output :=
  match results with
  | r :: _ =>
    match r.boxes with
    | some (b :: bs) =>
      let st := (b :: bs).foldl (processBox names) ⟨[], [], ""⟩
      let la := locateArtifact fs resultDir filepath st.alert_message
      ⟨st.predictions, st.class_counts, la.2, la.1⟩
    | some [] => ⟨[], [], "No objects detected.", filepath⟩
    | none => ⟨[], [], "No objects detected.", filepath⟩
  | [] => ⟨[], [], "Prediction failed.", filepath⟩

/-- Separator normalization `str.replace("\\", "/")` on the computed relative path. -/
def normSlash (s : String) : String :=
  String.mk (s.toList.map (fun c => if c = '\\' then '/' else c))

/-- Model of `os.path.relpath(os.path.abspath(p), start=os.path.abspath("static"))` for
the paths this handler produces, which all live under `static/`: strip the
`static/` prefix.  `none` models the exception branch of the `try`. -/
def relFromStatic (p : String) : Option String :=
  if p.toList.take 7 = "static/".toList then some (String.mk (p.toList.drop 7))
  else none

/-- The path-resolution stage (`src/app.py:124-154`): relative path of the
artifact, falling back to the relative path of the original upload, falling
back to the hardcoded placeholder. -/
def resolveHtmlPath (artifact filepath : String) : String :=
  match relFromStatic artifact with
  | some r => normSlash r
  | none =>
    match relFromStatic filepath with
    | some r => normSlash r
    | none => "uploads/default_image.jpg"

/-- The inbound request: the filename of the `file` field, when present. -/
structure Request where
  file : Option String

/-- Side effects of the handler: files written and model invocations. -/
structure Effects where
  savedFiles : List String
  modelCalls : List String
deriving DecidableEq

/-- The HTTP response: a plain-text error or the rendered result page. -/
inductive Response where
  | badRequest (msg : String) (code : Nat)
  | page (predictions : List Pred) (alert : String) (imgPath : String)
      (classCounts : List (String × Nat))
deriving DecidableEq

/-- HTTP status of a response (`render_template` responds 200). -/
def Response.statusCode : Response → Nat
  | .badRequest _ c => c
  | .page _ _ _ _ => 200

/-- The rendered page's image path, when the response is a page. -/
def Response.imgPathOf : Response → Option String
  | .badRequest _ _ => none
  | .page _ _ p _ => some p

def UPLOAD_FOLDER : String := "static/uploads/"
def RESULT_FOLDER : String := "static/results/"

/-- The full `/predict` handler (`src/app.py:32-163`). -/
def predict (names : Nat → Option String) (runModel : String → List YoloResult)
    (fs : String → Option (List String)) (req : Request) : Response × Effects :=
  match req.file with
  | none => (.badRequest "No file uploaded" 400, ⟨[], []⟩)
  | some rawFilename =>
    if rawFilename = "" then (.badRequest "No file selected" 400, ⟨[], []⟩)
    else
      let filename := secure_filename rawFilename
      let filepath := osJoin UPLOAD_FOLDER filename
      let resultName := "result_" ++ splitextRoot filename
      let resultDir := osJoin RESULT_FOLDER resultName
      let results := runModel filepath
      let out := processResults names results fs filepath resultDir
      let imgPath := resolveHtmlPath out.image_to_display filepath
      (.page out.predictions out.alert_message imgPath out.class_counts,
        ⟨[filepath], [filepath]⟩)

/-! ### Lemmas about the sanitizer -/

theorem map_self_of_fixed {α : Type} (f : α → α) :
    ∀ (l : List α), (∀ c ∈ l, f c = c) → l.map f = l
  | [], _ => rfl
  | a :: l, h => by
    simp only [List.map_cons, h a (by simp)]
    rw [map_self_of_fixed f l (fun c hc => h c (by simp [hc]))]

theorem dropWhile_head_not {α : Type} (p : α → Bool) :
    ∀ (l : List α) (c : α), (l.dropWhile p).head? = some c → p c = false
  | [], c => by simp
  | a :: l, c => by
    intro h
    rw [List.dropWhile_cons] at h
    by_cases hp : p a = true
    · rw [if_pos hp] at h
      exact dropWhile_head_not p l c h
    · rw [if_neg hp] at h
      simp only [List.head?_cons, Option.some.injEq] at h
      subst h
      exact Bool.eq_false_iff.mpr hp

theorem dropWhile_eq_self_of {α : Type} (p : α → Bool) (l : List α)
    (h : ∀ c, l.head? = some c → p c = false) : l.dropWhile p = l := by
  cases l with
  | nil => rfl
  | cons a l =>
    rw [List.dropWhile_cons, if_neg]
    simp [h a rfl]

theorem getLast?_dropWhile {α : Type} (p : α → Bool) :
    ∀ (l : List α), l.dropWhile p ≠ [] → (l.dropWhile p).getLast? = l.getLast?
  | [], h => by simp at h
  | a :: l, h => by
    rw [List.dropWhile_cons]
    by_cases hp : p a = true
    · rw [List.dropWhile_cons, if_pos hp] at h
      rw [if_pos hp, getLast?_dropWhile p l h]
      cases l with
      | nil => simp [List.dropWhile_nil] at h
      | cons b m => rw [List.getLast?_cons_cons]
    · rw [if_neg hp]

theorem stripDU_idem (cs : List Char) : stripDU (stripDU cs) = stripDU cs := by
  set u := cs.dropWhile isDU with hu
  set z := u.reverse.dropWhile isDU with hz
  have hy : stripDU cs = z.reverse := rfl
  rw [hy]
  have hz_head : ∀ c, z.head? = some c → isDU c = false := fun c hc =>
    dropWhile_head_not isDU u.reverse c (by rw [← hz]; exact hc)
  have hy_head : ∀ c, z.reverse.head? = some c → isDU c = false := by
    intro c hc
    rw [List.head?_reverse] at hc
    by_cases hzn : z = []
    · rw [hzn] at hc; simp at hc
    · rw [hz, getLast?_dropWhile isDU u.reverse (by rw [← hz]; exact hzn),
        List.getLast?_reverse] at hc
      exact dropWhile_head_not isDU cs c (by rw [hu] at hc; exact hc)
  show ((z.reverse.dropWhile isDU).reverse.dropWhile isDU).reverse = z.reverse
  rw [dropWhile_eq_self_of isDU z.reverse hy_head, List.reverse_reverse,
    dropWhile_eq_self_of isDU z hz_head]

theorem mem_stripDU {c : Char} {cs : List Char} (h : c ∈ stripDU cs) : c ∈ cs := by
  unfold stripDU at h
  rw [List.mem_reverse] at h
  have h2 := (List.dropWhile_sublist (l := (cs.dropWhile isDU).reverse) isDU).mem h
  rw [List.mem_reverse] at h2
  exact (List.dropWhile_sublist (l := cs) isDU).mem h2

theorem allowed_of_mem_secure {c : Char} {cs : List Char}
    (h : c ∈ secureFilenameList cs) : allowedChar c = true := by
  unfold secureFilenameList at h
  have h2 := mem_stripDU h
  exact (List.mem_filter.mp h2).2

theorem allowedChar_not {c : Char} (h : allowedChar c = true) {d : Char}
    (hd : allowedChar d = false) : c ≠ d := by
  intro e
  rw [e, hd] at h
  exact Bool.false_ne_true h

theorem toNat_lt_128_of_allowed {c : Char} (h : allowedChar c = true) :
    c.toNat < 128 := by
  unfold allowedChar at h
  simp only [Bool.or_eq_true, Bool.and_eq_true, decide_eq_true_eq] at h
  rcases h with ((((h | h) | h) | h) | h) | h
  · omega
  · omega
  · omega
  all_goals subst h; decide

theorem pySpace_eq_false_of_allowed {c : Char} (h : allowedChar c = true) :
    pySpace c = false := by
  unfold pySpace
  simp only [Bool.or_eq_false_iff, decide_eq_false_iff_not]
  refine ⟨⟨⟨⟨⟨?_, ?_⟩, ?_⟩, ?_⟩, ?_⟩, ?_⟩ <;> exact allowedChar_not h (by decide)

theorem asciiOnly_fixed {cs : List Char} (h : ∀ c ∈ cs, allowedChar c = true) :
    asciiOnly cs = cs :=
  List.filter_eq_self.mpr fun c hc => by
    simpa using toNat_lt_128_of_allowed (h c hc)

theorem sepToSpace_fixed {cs : List Char} (h : ∀ c ∈ cs, allowedChar c = true) :
    sepToSpace cs = cs :=
  map_self_of_fixed _ cs fun c hc =>
    if_neg (allowedChar_not (h c hc) (by decide))

theorem wsTokens_fixed {cs : List Char} (h : ∀ c ∈ cs, allowedChar c = true) :
    wsTokens cs = if cs = [] then [] else [cs] := by
  unfold wsTokens
  rw [List.splitOnP_eq_single pySpace cs
    (fun c hc => by simp [pySpace_eq_false_of_allowed (h c hc)])]
  cases cs with
  | nil => simp
  | cons a l => simp

theorem underscoreJoin_single (t : List Char) : underscoreJoin [t] = t := by
  unfold underscoreJoin
  rw [List.intersperse_singleton, List.flatten_cons, List.flatten_nil, List.append_nil]

theorem dropUnallowed_fixed {cs : List Char} (h : ∀ c ∈ cs, allowedChar c = true) :
    dropUnallowed cs = cs :=
  List.filter_eq_self.mpr h

theorem secure_pass_fixed {t : List Char} (hall : ∀ c ∈ t, allowedChar c = true)
    (hstrip : stripDU t = t) : secureFilenameList t = t := by
  unfold secureFilenameList
  rw [asciiOnly_fixed hall, sepToSpace_fixed hall, wsTokens_fixed hall]
  by_cases h0 : t = []
  · rw [if_pos h0, h0]
    rfl
  · rw [if_neg h0, underscoreJoin_single, dropUnallowed_fixed hall, hstrip]

theorem secureFilenameList_idem (cs : List Char) :
    secureFilenameList (secureFilenameList cs) = secureFilenameList cs :=
  secure_pass_fixed (fun _ hc => allowed_of_mem_secure hc) (stripDU_idem _)

/-! ### Lemmas about the aggregation loop -/

theorem foldl_processBox_predictions (names : Nat → Option String) :
    ∀ (bs : List Box) (st : AggState),
      (bs.foldl (processBox names) st).predictions =
        st.predictions ++ bs.map (mkPred names)
  | [], st => by simp
  | b :: bs, st => by
    rw [List.foldl_cons, foldl_processBox_predictions names bs]
    simp [processBox, mkPred]

theorem incCount_sum : ∀ (m : List (String × Nat)) (k : String),
    sumCounts (incCount m k) = sumCounts m + 1
  | [], k => rfl
  | (k', v) :: rest, k => by
    by_cases h : k' = k
    · simp [incCount, h, sumCounts]
      omega
    · simp [incCount, h, sumCounts]
      have := incCount_sum rest k
      simp [sumCounts] at this
      omega

theorem foldl_processBox_counts (names : Nat → Option String) :
    ∀ (bs : List Box) (st : AggState),
      sumCounts (bs.foldl (processBox names) st).class_counts =
        sumCounts st.class_counts + bs.length
  | [], st => by simp
  | b :: bs, st => by
    rw [List.foldl_cons, foldl_processBox_counts names bs]
    simp [processBox, incCount_sum]
    omega

/-! ### Claim theorems -/

/-- C1: for a model result whose first per-image result contains `N ≥ 1`
detection boxes, the aggregated `predictions` list has exactly `N` entries,
each raw detection mapping 1:1 (in order) to one entry, and the values of
`class_counts` sum to `N`. -/
theorem c1_aggregation_counts (names : Nat → Option String)
    (fs : String → Option (List String)) (filepath resultDir : String)
    (rest : List YoloResult) (r : YoloResult) (b : Box) (bs : List Box)
    (hb : r.boxes = some (b :: bs)) :
    (processResults names (r :: rest) fs filepath resultDir).predictions =
      (b :: bs).map (mkPred names) ∧
    (processResults names (r :: rest) fs filepath resultDir).predictions.length =
      (b :: bs).length ∧
    sumCounts (processResults names (r :: rest) fs filepath resultDir).class_counts =
      (b :: bs).length := by
  obtain ⟨bx⟩ := r
  change bx = some (b :: bs) at hb
  subst hb
  simp only [processResults]
  refine ⟨?_, ?_, ?_⟩
  · rw [foldl_processBox_predictions]
    rfl
  · rw [foldl_processBox_predictions]
    simp
  · rw [foldl_processBox_counts]
    simp [sumCounts]

theorem c1_witness :
    (YoloResult.mk (some [⟨0, 3/4⟩, ⟨1, 1/2⟩])).boxes = some [⟨0, 3/4⟩, ⟨1, 1/2⟩] ∧
    ((processResults (fun _ => some "milco") [⟨some [⟨0, 3/4⟩, ⟨1, 1/2⟩]⟩]
        (fun _ => none) "static/uploads/a.png" "static/results/result_a").predictions =
      [⟨0, 3/4⟩, ⟨1, 1/2⟩].map (mkPred (fun _ => some "milco")) ∧
    (processResults (fun _ => some "milco") [⟨some [⟨0, 3/4⟩, ⟨1, 1/2⟩]⟩]
        (fun _ => none) "static/uploads/a.png" "static/results/result_a").predictions.length =
      ([⟨0, 3/4⟩, ⟨1, 1/2⟩] : List Box).length ∧
    sumCounts (processResults (fun _ => some "milco") [⟨some [⟨0, 3/4⟩, ⟨1, 1/2⟩]⟩]
        (fun _ => none) "static/uploads/a.png" "static/results/result_a").class_counts =
      ([⟨0, 3/4⟩, ⟨1, 1/2⟩] : List Box).length) :=
  ⟨rfl, c1_aggregation_counts (fun _ => some "milco") (fun _ => none)
    "static/uploads/a.png" "static/results/result_a" [] ⟨some [⟨0, 3/4⟩, ⟨1, 1/2⟩]⟩
    ⟨0, 3/4⟩ [⟨1, 1/2⟩] rfl⟩

/-- C2: processing one detection whose label (case-insensitively) is "milco"
leaves the alert equal to the fixed mine warning exactly when its scaled
confidence exceeds 60 or the warning was already set (so a confidence of 75
sets it, 50 does not, and a later qualifying detection overwrites it with the
same message); a non-qualifying detection leaves the alert unchanged. -/
theorem c2_milco_alert (names : Nat → Option String) (st : AggState) (b : Box)
    (h : strLower (labelOf names b.cls) = "milco") :
    ((processBox names st b).alert_message = mineAlert ↔
      b.conf * 100 > 60 ∨ st.alert_message = mineAlert) ∧
    (¬ b.conf * 100 > 60 →
      (processBox names st b).alert_message = st.alert_message) := by
  by_cases hc : b.conf * 100 > 60
  · constructor
    · simp [processBox, h, hc]
    · intro h2
      exact absurd hc h2
  · constructor
    · simp [processBox, h, hc]
    · intro _
      simp [processBox, h, hc]

theorem c2_witness :
    strLower (labelOf (fun _ => some "MilCo") (Box.mk 0 (3/4)).cls) = "milco" ∧
    ((processBox (fun _ => some "MilCo") ⟨[], [], ""⟩ ⟨0, 3/4⟩).alert_message = mineAlert ↔
      (Box.mk 0 (3/4)).conf * 100 > 60 ∨
        (AggState.mk [] [] "").alert_message = mineAlert) ∧
    ((processBox (fun _ => some "MilCo") ⟨[], [], ""⟩ ⟨0, 1/2⟩).alert_message = mineAlert ↔
      (Box.mk 0 (1/2)).conf * 100 > 60 ∨
        (AggState.mk [] [] "").alert_message = mineAlert) :=
  ⟨by decide,
    (c2_milco_alert (fun _ => some "MilCo") ⟨[], [], ""⟩ ⟨0, 3/4⟩ (by decide)).1,
    (c2_milco_alert (fun _ => some "MilCo") ⟨[], [], ""⟩ ⟨0, 1/2⟩ (by decide)).1⟩

/-- C4: an empty detection list on the first result yields the alert
"No objects detected.", empty predictions and class counts, and the original
upload path as the displayed image. -/
theorem c4_no_objects (names : Nat → Option String)
    (fs : String → Option (List String)) (filepath resultDir : String)
    (rest : List YoloResult) (r : YoloResult) (hb : r.boxes = some []) :
    processResults names (r :: rest) fs filepath resultDir =
      ⟨[], [], "No objects detected.", filepath⟩ := by
  obtain ⟨bx⟩ := r
  change bx = some [] at hb
  subst hb
  rfl

theorem c4_witness :
    (YoloResult.mk (some [])).boxes = some ([] : List Box) ∧
    processResults (fun _ => none) [⟨some []⟩] (fun _ => none)
        "static/uploads/a.png" "static/results/result_a" =
      ⟨[], [], "No objects detected.", "static/uploads/a.png"⟩ :=
  ⟨rfl, c4_no_objects (fun _ => none) (fun _ => none) "static/uploads/a.png"
    "static/results/result_a" [] ⟨some []⟩ rfl⟩

/-- C9: a first result whose `boxes` collection is `None` is handled exactly
like an empty detection list: the outputs coincide, with alert
"No objects detected.", empty predictions and counts, and the original upload
displayed. -/
theorem c9_none_boxes (names : Nat → Option String)
    (fs : String → Option (List String)) (filepath resultDir : String)
    (rest : List YoloResult) (r : YoloResult) (hb : r.boxes = none) :
    processResults names (r :: rest) fs filepath resultDir =
      processResults names (⟨some []⟩ :: rest) fs filepath resultDir ∧
    processResults names (r :: rest) fs filepath resultDir =
      ⟨[], [], "No objects detected.", filepath⟩ := by
  obtain ⟨bx⟩ := r
  change bx = none at hb
  subst hb
  exact ⟨rfl, rfl⟩

theorem c9_witness :
    (YoloResult.mk none).boxes = none ∧
    (processResults (fun _ => none) [⟨none⟩] (fun _ => none)
        "static/uploads/a.png" "static/results/result_a" =
      processResults (fun _ => none) [⟨some []⟩] (fun _ => none)
        "static/uploads/a.png" "static/results/result_a" ∧
    processResults (fun _ => none) [⟨none⟩] (fun _ => none)
        "static/uploads/a.png" "static/results/result_a" =
      ⟨[], [], "No objects detected.", "static/uploads/a.png"⟩) :=
  ⟨rfl, c9_none_boxes (fun _ => none) (fun _ => none) "static/uploads/a.png"
    "static/results/result_a" [] ⟨none⟩ rfl⟩

/-- C7: the path-resolution stage is total and falls over at most twice: it
returns the artifact's path relative to the static root when that computation
succeeds, else the original upload's relative path, else the hardcoded
placeholder — never an error. -/
theorem c7_resolver_total (artifact filepath : String) :
    (∃ r, relFromStatic artifact = some r ∧
      resolveHtmlPath artifact filepath = normSlash r) ∨
    (relFromStatic artifact = none ∧ ∃ r, relFromStatic filepath = some r ∧
      resolveHtmlPath artifact filepath = normSlash r) ∨
    (relFromStatic artifact = none ∧ relFromStatic filepath = none ∧
      resolveHtmlPath artifact filepath = "uploads/default_image.jpg") := by
  rcases ha : relFromStatic artifact with _ | ra
  · rcases hf : relFromStatic filepath with _ | rf
    · exact Or.inr (Or.inr ⟨rfl, rfl, by simp [resolveHtmlPath, ha, hf]⟩)
    · exact Or.inr (Or.inl ⟨rfl, rf, rfl, by simp [resolveHtmlPath, ha, hf]⟩)
  · exact Or.inl ⟨ra, rfl, by simp [resolveHtmlPath, ha]⟩

/-- C8: the filename sanitizer is idempotent — sanitizing twice equals
sanitizing once, for every filename string. -/
theorem c8_sanitize_idempotent (s : String) :
    secure_filename (secure_filename s) = secure_filename s := by
  show String.mk (secureFilenameList (secureFilenameList s.toList)) = _
  rw [secureFilenameList_idem]
  rfl

/-- C3: when detections exist and the results subdirectory listing contains no
file with an image extension, the displayed artifact stays the original upload
path, and the not-found message overwrites (does not append to) whatever alert
the detection loop had set. -/
theorem c3_artifact_not_found (names : Nat → Option String)
    (fs : String → Option (List String)) (filepath resultDir : String)
    (rest : List YoloResult) (r : YoloResult) (b : Box) (bs : List Box)
    (hb : r.boxes = some (b :: bs)) (files : List String)
    (hdir : fs resultDir = some files)
    (hnone : ∀ f ∈ files, isImageFile f = false) :
    (processResults names (r :: rest) fs filepath resultDir).image_to_display =
      filepath ∧
    (processResults names (r :: rest) fs filepath resultDir).alert_message =
      notFoundAlert := by
  obtain ⟨bx⟩ := r
  change bx = some (b :: bs) at hb
  subst hb
  have hfind : files.find? isImageFile = none :=
    List.find?_eq_none.mpr fun x hx => by simp [hnone x hx]
  constructor <;> simp [processResults, locateArtifact, hdir, hfind]

theorem c3_witness :
    (YoloResult.mk (some [⟨0, 3/4⟩])).boxes = some [⟨0, 3/4⟩] ∧
    ((fun d => if d = "static/results/result_a" then some ["labels.txt"] else none)
      "static/results/result_a" = some ["labels.txt"]) ∧
    (∀ f ∈ ["labels.txt"], isImageFile f = false) ∧
    (processResults (fun _ => some "milco") [⟨some [⟨0, 3/4⟩]⟩]
        (fun d => if d = "static/results/result_a" then some ["labels.txt"] else none)
        "static/uploads/a.png" "static/results/result_a").image_to_display =
      "static/uploads/a.png" ∧
    (processResults (fun _ => some "milco") [⟨some [⟨0, 3/4⟩]⟩]
        (fun d => if d = "static/results/result_a" then some ["labels.txt"] else none)
        "static/uploads/a.png" "static/results/result_a").alert_message =
      notFoundAlert := by
  have h := c3_artifact_not_found (fun _ => some "milco")
    (fun d => if d = "static/results/result_a" then some ["labels.txt"] else none)
    "static/uploads/a.png" "static/results/result_a" [] ⟨some [⟨0, 3/4⟩]⟩
    ⟨0, 3/4⟩ [] rfl ["labels.txt"] (by decide) (by decide)
  exact ⟨rfl, by decide, by decide, h.1, h.2⟩

/-- C5: a POST without a `file` field, or with an empty filename, yields a 400
response, and neither a file save nor a model invocation happens. -/
theorem c5_bad_request (names : Nat → Option String)
    (runModel : String → List YoloResult) (fs : String → Option (List String))
    (req : Request) (h : req.file = none ∨ req.file = some "") :
    (predict names runModel fs req).1.statusCode = 400 ∧
    (predict names runModel fs req).2 = ⟨[], []⟩ := by
  obtain ⟨f⟩ := req
  rcases h with h | h
  · change f = none at h
    subst h
    exact ⟨rfl, rfl⟩
  · change f = some "" at h
    subst h
    exact ⟨rfl, rfl⟩

theorem c5_witness :
    ((Request.mk (some "")).file = none ∨ (Request.mk (some "")).file = some "") ∧
    (predict (fun _ => none) (fun _ => []) (fun _ => none) ⟨some ""⟩).1.statusCode = 400 ∧
    (predict (fun _ => none) (fun _ => []) (fun _ => none) ⟨some ""⟩).2 = ⟨[], []⟩ := by
  have h : (Request.mk (some "")).file = none ∨ (Request.mk (some "")).file = some "" :=
    Or.inr rfl
  exact ⟨h, c5_bad_request (fun _ => none) (fun _ => []) (fun _ => none) ⟨some ""⟩ h⟩

/-- C10: the empty-filename rejection inspects only the raw filename: the raw
name ".." is non-empty, so the handler does not return 400 even though its
sanitized form is the empty string, and it saves to the uploads directory
joined with that empty string. -/
theorem c10_raw_filename_check (names : Nat → Option String)
    (runModel : String → List YoloResult) (fs : String → Option (List String)) :
    secure_filename ".." = "" ∧
    (predict names runModel fs ⟨some ".."⟩).1.statusCode ≠ 400 ∧
    (predict names runModel fs ⟨some ".."⟩).2.savedFiles =
      [osJoin UPLOAD_FOLDER (secure_filename "..")] ∧
    osJoin UPLOAD_FOLDER (secure_filename "..") = UPLOAD_FOLDER := by
  refine ⟨by decide, ?_, rfl, by decide⟩
  have h : (predict names runModel fs ⟨some ".."⟩).1.statusCode = 200 := rfl
  rw [h]
  decide

/-! ### Lemmas for the path of the displayed image -/

theorem secure_filename_allowed (s : String) :
    ∀ c ∈ (secure_filename s).toList, allowedChar c = true :=
  fun _ hc => allowed_of_mem_secure hc

theorem osJoin_uploads (fn : String)
    (h : ∀ c ∈ fn.toList, allowedChar c = true) :
    osJoin UPLOAD_FOLDER fn = "static/uploads/" ++ fn := by
  have hne : ¬ fn.toList.head? = some '/' := by
    intro hc
    have hm : '/' ∈ fn.toList := by
      cases hl : fn.toList with
      | nil => rw [hl] at hc; exact absurd hc (by simp)
      | cons a t =>
        rw [hl] at hc
        simp only [List.head?_cons, Option.some.injEq] at hc
        rw [← hc]
        exact List.mem_cons_self a t
    exact absurd (h '/' hm) (by decide)
  unfold osJoin
  rw [if_neg hne, if_neg (by decide), if_pos (by decide)]
  rfl

theorem relFromStatic_under (t : String) :
    relFromStatic ("static/" ++ t) = some t := by
  obtain ⟨l⟩ := t
  have htake : ("static/" ++ String.mk l).toList.take 7 = "static/".toList := by
    show ("static/".data ++ l).take 7 = "static/".toList
    rw [List.take_append_of_le_length (by decide)]
    decide
  have hdrop : ("static/" ++ String.mk l).toList.drop 7 = l := by
    show ("static/".data ++ l).drop 7 = l
    rw [List.drop_append_of_le_length (by decide),
      show "static/".data.drop 7 = [] from by decide, List.nil_append]
  unfold relFromStatic
  rw [if_pos htake, hdrop]

theorem display_missing_dir (names : Nat → Option String) (results : List YoloResult)
    (fs : String → Option (List String)) (filepath resultDir : String)
    (hdir : fs resultDir = none) :
    (processResults names results fs filepath resultDir).image_to_display =
      filepath := by
  match results with
  | [] => rfl
  | ⟨none⟩ :: rest => rfl
  | ⟨some []⟩ :: rest => rfl
  | ⟨some (b :: bs)⟩ :: rest => simp [processResults, locateArtifact, hdir]

theorem normSlash_fixed (s : String) (h : ∀ c ∈ s.toList, c ≠ '\\') :
    normSlash s = s := by
  unfold normSlash
  obtain ⟨l⟩ := s
  show String.mk (l.map _) = String.mk l
  rw [map_self_of_fixed _ l (fun c hc => if_neg (h c hc))]

theorem uploads_no_backslash (fn : String)
    (h : ∀ c ∈ fn.toList, allowedChar c = true) :
    ∀ c ∈ ("uploads/" ++ fn).toList, c ≠ '\\' := by
  intro c hc
  simp only [String.toList] at hc
  rw [String.data_append] at hc
  rcases List.mem_append.mp hc with h1 | h1
  · intro he
    subst he
    revert h1
    decide
  · exact allowedChar_not (h c h1) (by decide)

/-- C6: when the expected results subdirectory does not exist, the rendered
image path is the original upload's path relative to the static root
(`uploads/<sanitized-name>`), never a path under the results directory. -/
theorem c6_missing_result_dir (names : Nat → Option String)
    (runModel : String → List YoloResult) (fs : String → Option (List String))
    (raw : String) (hraw : ¬ raw = "")
    (hdir : fs (osJoin RESULT_FOLDER
      ("result_" ++ splitextRoot (secure_filename raw))) = none) :
    (predict names runModel fs ⟨some raw⟩).1.imgPathOf =
      some ("uploads/" ++ secure_filename raw) ∧
    ∀ rest, "uploads/" ++ secure_filename raw ≠ "results/" ++ rest := by
  constructor
  · have hfp : osJoin UPLOAD_FOLDER (secure_filename raw) =
        "static/" ++ ("uploads/" ++ secure_filename raw) :=
      (osJoin_uploads _ (secure_filename_allowed raw)).trans rfl
    simp only [predict]
    rw [if_neg hraw]
    simp only [Response.imgPathOf, Option.some.injEq]
    rw [display_missing_dir names _ fs _ _ hdir, hfp]
    unfold resolveHtmlPath
    rw [relFromStatic_under]
    exact normSlash_fixed _ (uploads_no_backslash _ (secure_filename_allowed raw))
  · intro rest heq
    have h1 : ("uploads/" ++ secure_filename raw).data.head? = some 'u' := rfl
    rw [heq] at h1
    exact absurd (Option.some.inj h1) (by decide)

theorem c6_witness :
    (¬ "a.png" = "") ∧
    ((fun _ => none : String → Option (List String))
      (osJoin RESULT_FOLDER
        ("result_" ++ splitextRoot (secure_filename "a.png"))) = none) ∧
    (predict (fun _ => none) (fun _ => []) (fun _ => none)
        ⟨some "a.png"⟩).1.imgPathOf =
      some ("uploads/" ++ secure_filename "a.png") ∧
    "uploads/" ++ secure_filename "a.png" ≠ "results/" ++ "r.png" := by
  have h1 : ¬ "a.png" = "" := by decide
  have h2 : (fun _ => none : String → Option (List String))
      (osJoin RESULT_FOLDER
        ("result_" ++ splitextRoot (secure_filename "a.png"))) = none := rfl
  have h := c6_missing_result_dir (fun _ => none) (fun _ => []) (fun _ => none)
    "a.png" h1 h2
  exact ⟨h1, h2, h.1, h.2 "r.png"⟩

end App
